import Mathlib

/-!
Shallow embedding of the XeroxYT recommendation core
(src/utils/xrai.ts, src/utils/recommendation.ts, and the HomePage feed
assembly in src/unnamed/part_000), together with proofs settling the
frozen specification claims.

Modelling conventions:
* JavaScript strings are Lean `String`s; character-level operations work on
  `List Char`.  JavaScript `toLowerCase`/`toUpperCase` are modelled by the
  ASCII case maps (the code's keyword and NG data is ASCII/Japanese, and
  Japanese characters are case-invariant).
* JavaScript numbers arising from `parseInt` on arbitrary strings are
  modelled as `Option Nat`, with `none` playing the role of `NaN`
  (arithmetic propagates `none`).
* Scores and profile weights (floats combined with `Math.exp`, `Math.log10`,
  `Math.log2`) are modelled as real numbers.
* `Math.random()` is modelled by explicit parameters: a jitter stream
  `jit : Nat → ℝ` for the scorer and an index stream `rand : Nat → Nat`
  for the Fisher-Yates shuffle.
* `Intl.Segmenter` (an environment-provided word segmenter, absent in some
  runtimes) is modelled as an explicit parameter `seg : String → List String`.
* ES `Map`s with `get(k) || 0` access are modelled as total functions with
  default value `0`.
-/

namespace XeroxYT

/-! ### Character and string helpers (JS primitives) -/

/-- ASCII lower-casing of one character, the effect of
`String.prototype.toLowerCase` on the characters appearing in this code. -/
def jsLowerChar (c : Char) : Char :=
  if 'A' ≤ c ∧ c ≤ 'Z' then Char.ofNat (c.toNat + 32) else c

/-- ASCII upper-casing of one character (`String.prototype.toUpperCase`). -/
def jsUpperChar (c : Char) : Char :=
  if 'a' ≤ c ∧ c ≤ 'z' then Char.ofNat (c.toNat - 32) else c

/-- Lower-case a character list. -/
def lowerList (l : List Char) : List Char := l.map jsLowerChar

/-- Lower-case a string (JS `s.toLowerCase()`). -/
def lowerStr (s : String) : String := String.mk (lowerList s.toList)

/-- JS `haystack.includes(needle)`: substring containment. -/
def listIncludes (haystack needle : List Char) : Bool :=
  decide (needle <:+: haystack)

/-- Numeric value of a list of decimal digit characters, most significant
first (the value `parseInt` assigns to a digit run). -/
def digitsToNat (l : List Char) : Nat :=
  l.foldl (fun n c => n * 10 + (c.toNat - 48)) 0

/-- JS `parseInt(s, 10)` on the strings this code feeds it: the value of the
leading digit run, `none` (= `NaN`) when the string does not start with a
digit. -/
def jsParseInt (s : String) : Option Nat :=
  let ds := s.toList.takeWhile Char.isDigit
  if ds = [] then none else some (digitsToNat ds)

/-- JS `s.split(c)` for a single-character separator (splitting keeps empty
parts; an empty input gives one empty part). -/
def splitOnChar (c : Char) : List Char → List (List Char)
  | [] => [[]]
  | x :: xs =>
    match splitOnChar c xs with
    | [] => [[]]
    | h :: t => if x = c then [] :: h :: t else (x :: h) :: t

/-! ### Duration parsing

`parseDuration` embeds the helper of the HomePage (src/unnamed/part_000,
lines 14–31); `parseDurationToSeconds` embeds the helper of
src/utils/recommendation.ts (lines 49–58).  The regex
`/PT(?:(\d+)H)?(?:(\d+)M)?(?:(\d+)S)?/` matches at the first occurrence of
`PT` (every group is optional), each group grabbing a maximal digit run
directly followed by its unit letter. -/

/-- Suffix after the first occurrence of `PT`, `none` when the regex fails
to match (`PT` does not occur). -/
def findPT : List Char → Option (List Char)
  | [] => none
  | 'P' :: 'T' :: rest => some rest
  | _ :: rest => findPT rest

/-- One optional regex group `(?:(\d+)u)?`: a maximal digit run followed by
the unit character, consumed on success; the input is left in place on
failure (group unset, `parseInt('0')` supplies `0`). -/
def grabUnit (u : Char) (l : List Char) : Nat × List Char :=
  let ds := l.takeWhile Char.isDigit
  let rest := l.drop ds.length
  match rest with
  | c :: r => if ds ≠ [] ∧ c = u then (digitsToNat ds, r) else (0, l)
  | [] => (0, l)

/-- The ISO branch of both duration parsers: result of matching
`/PT(?:(\d+)H)?(?:(\d+)M)?(?:(\d+)S)?/` and computing `h*3600 + m*60 + s`,
`none` when the regex does not match. -/
def parseISO (iso : String) : Option Nat :=
  match findPT iso.toList with
  | none => none
  | some rest =>
    let hr := grabUnit 'H' rest
    let mr := grabUnit 'M' hr.2
    let sr := grabUnit 'S' mr.2
    some (hr.1 * 3600 + mr.1 * 60 + sr.1)

/-- `parseDuration(iso, text)` from src/unnamed/part_000 lines 14–31.
The result is `Option Nat`, `none` modelling the JS `NaN` produced when a
colon part fails `parseInt`. -/
def parseDuration (iso text : String) : Option Nat :=
  match (if iso ≠ "" then parseISO iso else none) with
  | some n => some n
  | none =>
    if text ≠ "" then
      let parts := (splitOnChar ':' text.toList).map
        (fun p => jsParseInt (String.mk p))
      match parts with
      | [h, m, s] =>
        match h, m, s with
        | some h, some m, some s => some (h * 3600 + m * 60 + s)
        | _, _, _ => none
      | [m, s] =>
        match m, s with
        | some m, some s => some (m * 60 + s)
        | _, _ => none
      | [s] => s
      | _ => some 0
    else some 0

/-- `parseDurationToSeconds(isoDuration)` from src/utils/recommendation.ts
lines 49–58: a plain natural number, `0` whenever the regex fails. -/
def parseDurationToSeconds (isoDuration : String) : Nat :=
  if isoDuration = "" then 0
  else
    match parseISO isoDuration with
    | none => 0
    | some n => n

/-! ### Lemmas about the duration parsers (claim C7) -/

lemma takeWhile_digit_prefix (ds : List Char) (y : Char) (r : List Char)
    (hds : ∀ c ∈ ds, Char.isDigit c) (hy : ¬ Char.isDigit y) :
    (ds ++ y :: r).takeWhile Char.isDigit = ds := by
  induction ds with
  | nil => simp [List.takeWhile_cons, hy]
  | cons c cs ih =>
    have hc : Char.isDigit c := hds c (by simp)
    simp [List.takeWhile_cons, hc, ih (fun x hx => hds x (by simp [hx]))]

lemma takeWhile_digit_all (ds : List Char) (hds : ∀ c ∈ ds, Char.isDigit c) :
    ds.takeWhile Char.isDigit = ds := by
  induction ds with
  | nil => rfl
  | cons c cs ih =>
    have hc : Char.isDigit c := hds c (by simp)
    simp [List.takeWhile_cons, hc, ih (fun x hx => hds x (by simp [hx]))]

lemma grabUnit_exact (u : Char) (ds r : List Char) (hne : ds ≠ [])
    (hds : ∀ c ∈ ds, Char.isDigit c) (hu : ¬ Char.isDigit u) :
    grabUnit u (ds ++ u :: r) = (digitsToNat ds, r) := by
  simp only [grabUnit, takeWhile_digit_prefix ds u r hds hu, List.drop_left]
  simp [hne]

lemma parseISO_HMS (dh dm ds : List Char) (hh : dh ≠ [])
    (hdh : ∀ c ∈ dh, Char.isDigit c) (hm : dm ≠ [])
    (hdm : ∀ c ∈ dm, Char.isDigit c) (hs : ds ≠ [])
    (hds : ∀ c ∈ ds, Char.isDigit c) :
    parseISO (String.mk ('P' :: 'T' :: (dh ++ 'H' :: (dm ++ 'M' :: (ds ++ ['S'])))))
      = some (digitsToNat dh * 3600 + digitsToNat dm * 60 + digitsToNat ds) := by
  unfold parseISO
  have h1 : findPT (String.mk ('P' :: 'T' :: (dh ++ 'H' :: (dm ++ 'M' :: (ds ++ ['S']))))).toList
      = some (dh ++ 'H' :: (dm ++ 'M' :: (ds ++ ['S']))) := rfl
  rw [h1]
  have gH := grabUnit_exact 'H' dh (dm ++ 'M' :: (ds ++ ['S'])) hh hdh (by decide)
  have gM := grabUnit_exact 'M' dm (ds ++ ['S']) hm hdm (by decide)
  have gS := grabUnit_exact 'S' ds [] hs hds (by decide)
  simp only [gH, gM, gS]

lemma splitOnChar_no_sep (c : Char) (a : List Char) (ha : c ∉ a) :
    splitOnChar c a = [a] := by
  induction a with
  | nil => rfl
  | cons x xs ih =>
    have hx : x ≠ c := fun h => ha (by simp [h])
    have hxs : c ∉ xs := fun h => ha (by simp [h])
    rw [splitOnChar, ih hxs]
    simp [hx]

lemma splitOnChar_append (c : Char) (a b : List Char) (ha : c ∉ a) :
    splitOnChar c (a ++ c :: b) = a :: splitOnChar c b := by
  induction a with
  | nil =>
    rw [List.nil_append, splitOnChar]
    match hb : splitOnChar c b with
    | [] => simp
    | h :: t => simp
  | cons x xs ih =>
    have hx : x ≠ c := fun h => ha (by simp [h])
    have hxs : c ∉ xs := fun h => ha (by simp [h])
    rw [List.cons_append, splitOnChar, ih hxs]
    simp [hx]

lemma jsParseInt_digits (ds : List Char) (hne : ds ≠ [])
    (hds : ∀ c ∈ ds, Char.isDigit c) :
    jsParseInt (String.mk ds) = some (digitsToNat ds) := by
  unfold jsParseInt
  have : (String.mk ds).toList = ds := rfl
  rw [this, takeWhile_digit_all ds hds]
  simp [hne]

lemma digit_ne_colon (ds : List Char) (hds : ∀ c ∈ ds, Char.isDigit c) :
    (':' : Char) ∉ ds := by
  intro h
  have := hds ':' h
  simp [Char.isDigit] at this

/-- C7 (counterexample): the claim says every unparseable input yields
exactly zero seconds, but the HomePage `parseDuration` applied to the
unparseable clock text `"abc"` (no `PT` code, single colon part that is not
numeric) returns the JS `NaN` (modelled `none`), not zero. -/
theorem parseDuration_zero_counterexample :
    parseDuration "" "abc" = none ∧ parseDuration "" "abc" ≠ some 0 := by
  constructor
  · decide
  · decide

/-- C7 (amended): duration parsing accepts a structured `PT…H…M…S` code or
a colon-delimited clock string and computes `h*3600 + m*60 + s`; for input
matching neither shape, `parseDurationToSeconds` and (with empty clock
text) `parseDuration` return zero seconds and never throw — except that
`parseDuration`'s clock branch propagates `NaN` (not zero) when a
colon-split part is non-numeric.  The conjuncts below: (1) full ISO codes
in both parsers, for any clock text; (2) three-part clock strings;
(3) two-part clock strings; (4) zero for input matching neither shape. -/
theorem duration_parsing_amended :
    (∀ (dh dm ds : List Char) (t : String), dh ≠ [] → (∀ c ∈ dh, Char.isDigit c) →
      dm ≠ [] → (∀ c ∈ dm, Char.isDigit c) → ds ≠ [] → (∀ c ∈ ds, Char.isDigit c) →
      parseDuration (String.mk ('P' :: 'T' :: (dh ++ 'H' :: (dm ++ 'M' :: (ds ++ ['S']))))) t
          = some (digitsToNat dh * 3600 + digitsToNat dm * 60 + digitsToNat ds)
        ∧ parseDurationToSeconds (String.mk ('P' :: 'T' :: (dh ++ 'H' :: (dm ++ 'M' :: (ds ++ ['S'])))))
          = digitsToNat dh * 3600 + digitsToNat dm * 60 + digitsToNat ds)
    ∧ (∀ (dh dm ds : List Char), dh ≠ [] → (∀ c ∈ dh, Char.isDigit c) →
      dm ≠ [] → (∀ c ∈ dm, Char.isDigit c) → ds ≠ [] → (∀ c ∈ ds, Char.isDigit c) →
      parseDuration "" (String.mk (dh ++ ':' :: (dm ++ ':' :: ds)))
        = some (digitsToNat dh * 3600 + digitsToNat dm * 60 + digitsToNat ds))
    ∧ (∀ (dm ds : List Char), dm ≠ [] → (∀ c ∈ dm, Char.isDigit c) →
      ds ≠ [] → (∀ c ∈ ds, Char.isDigit c) →
      parseDuration "" (String.mk (dm ++ ':' :: ds))
        = some (digitsToNat dm * 60 + digitsToNat ds))
    ∧ (∀ iso : String, findPT iso.toList = none →
      parseDuration iso "" = some 0 ∧ parseDurationToSeconds iso = 0) := by
  refine ⟨?_, ?_, ?_, ?_⟩
  · intro dh dm ds t hh hdh hm hdm hs hds
    have hiso := parseISO_HMS dh dm ds hh hdh hm hdm hs hds
    have hne : String.mk ('P' :: 'T' :: (dh ++ 'H' :: (dm ++ 'M' :: (ds ++ ['S'])))) ≠ "" := by
      simp [String.ext_iff]
    constructor
    · simp [parseDuration, hiso, hne]
    · simp [parseDurationToSeconds, hiso, hne]
  · intro dh dm ds hh hdh hm hdm hs hds
    have htext : (String.mk (dh ++ ':' :: (dm ++ ':' :: ds))).toList
        = dh ++ ':' :: (dm ++ ':' :: ds) := rfl
    have hsplit : splitOnChar ':' (dh ++ ':' :: (dm ++ ':' :: ds))
        = dh :: dm :: [ds] := by
      rw [splitOnChar_append ':' dh _ (digit_ne_colon dh hdh),
        splitOnChar_append ':' dm _ (digit_ne_colon dm hdm),
        splitOnChar_no_sep ':' ds (digit_ne_colon ds hds)]
    have hne : String.mk (dh ++ ':' :: (dm ++ ':' :: ds)) ≠ "" := by
      simp [String.ext_iff]
    simp only [parseDuration, htext, hsplit]
    simp [jsParseInt_digits dh hh hdh, jsParseInt_digits dm hm hdm,
      jsParseInt_digits ds hs hds, hne]
  · intro dm ds hm hdm hs hds
    have htext : (String.mk (dm ++ ':' :: ds)).toList = dm ++ ':' :: ds := rfl
    have hsplit : splitOnChar ':' (dm ++ ':' :: ds) = dm :: [ds] := by
      rw [splitOnChar_append ':' dm _ (digit_ne_colon dm hdm),
        splitOnChar_no_sep ':' ds (digit_ne_colon ds hds)]
    have hne : String.mk (dm ++ ':' :: ds) ≠ "" := by
      simp [String.ext_iff]
    simp only [parseDuration, htext, hsplit]
    simp [jsParseInt_digits dm hm hdm, jsParseInt_digits ds hs hds, hne]
  · intro iso hiso
    have hpi : parseISO iso = none := by
      unfold parseISO
      rw [hiso]
    constructor
    · by_cases he : iso = ""
      · subst he
        decide
      · simp [parseDuration, he, hpi]
    · by_cases he : iso = ""
      · subst he
        decide
      · simp [parseDurationToSeconds, he, hpi]

/-- C7 (witness): the amended theorem applied at the concrete inputs
`"PT1H2M3S"`, `"1:02:03"`, `"4:5"` and the unparseable iso `"garbage"`. -/
theorem duration_parsing_witness :
    (parseDuration (String.mk ('P' :: 'T' :: (['1'] ++ 'H' :: (['2'] ++ 'M' :: (['3'] ++ ['S'])))))
        "" = some (digitsToNat ['1'] * 3600 + digitsToNat ['2'] * 60 + digitsToNat ['3'])
      ∧ parseDurationToSeconds (String.mk ('P' :: 'T' :: (['1'] ++ 'H' :: (['2'] ++ 'M' :: (['3'] ++ ['S'])))))
        = digitsToNat ['1'] * 3600 + digitsToNat ['2'] * 60 + digitsToNat ['3'])
    ∧ parseDuration "" (String.mk (['1'] ++ ':' :: (['0', '2'] ++ ':' :: ['0', '3'])))
        = some (digitsToNat ['1'] * 3600 + digitsToNat ['0', '2'] * 60 + digitsToNat ['0', '3'])
    ∧ parseDuration "" (String.mk (['4'] ++ ':' :: ['5']))
        = some (digitsToNat ['4'] * 60 + digitsToNat ['5'])
    ∧ (parseDuration "garbage" "" = some 0 ∧ parseDurationToSeconds "garbage" = 0) :=
  ⟨duration_parsing_amended.1 ['1'] ['2'] ['3'] "" (by decide) (by decide) (by decide)
      (by decide) (by decide) (by decide),
    duration_parsing_amended.2.1 ['1'] ['0', '2'] ['0', '3'] (by decide) (by decide)
      (by decide) (by decide) (by decide) (by decide),
    duration_parsing_amended.2.2.1 ['4'] ['5'] (by decide) (by decide) (by decide) (by decide),
    duration_parsing_amended.2.2.2 "garbage" (by decide)⟩

/-! ### Data model (src/types: the fields used by the recommendation core) -/

/-- A content item as consumed by the recommenders (the `Video` type).
`descriptionSnippet` is optional (`video.descriptionSnippet || ''` in the
code); the remaining text fields are plain strings, with `""` playing the
role of a falsy/missing value. -/
structure Video where
  id : String
  title : String
  channelName : String
  channelId : String
  descriptionSnippet : Option String
  views : String
  uploadedAt : String
  isoDuration : String
  duration : String
deriving DecidableEq

/-- A source channel (the `Channel` type): the fields the core reads. -/
structure Channel where
  id : String
  name : String
deriving DecidableEq

/-! ### Diversity capping (src/utils/xrai.ts lines 192–205)

The final stage of `rankVideos`: walk the score-sorted list once, keeping a
per-channel counter (`channelCount`, an ES `Map` modelled as a total
function with default `0`) and emitting an item only while its channel's
counter is below `MAX_FROM_SAME_CHANNEL`. -/

def MAX_FROM_SAME_CHANNEL : Nat := 4

/-- The `for (const { video } of scoredVideos)` loop body of the diversity
filter, with the mutable `channelCount` map threaded explicitly. -/
def diversityLoop (cap : Nat) (channelCount : String → Nat) :
    List Video → List Video
  | [] => []
  | v :: vs =>
    if channelCount v.channelId < cap then
      v :: diversityLoop cap
        (fun c => if c = v.channelId then channelCount c + 1 else channelCount c) vs
    else diversityLoop cap channelCount vs

/-- The diversity filter as run by `rankVideos`: empty counters, cap 4. -/
def diversityFilter (scored : List Video) : List Video :=
  diversityLoop MAX_FROM_SAME_CHANNEL (fun _ => 0) scored

lemma diversityLoop_sublist (cap : Nat) :
    ∀ (l : List Video) (cnt : String → Nat), List.Sublist (diversityLoop cap cnt l) l := by
  intro l
  induction l with
  | nil => intro cnt; exact List.Sublist.refl []
  | cons v vs ih =>
    intro cnt
    rw [diversityLoop]
    by_cases h : cnt v.channelId < cap
    · rw [if_pos h]
      exact List.Sublist.cons₂ v (ih _)
    · rw [if_neg h]
      exact List.Sublist.cons v (ih cnt)

lemma diversityLoop_countP (cap : Nat) :
    ∀ (l : List Video) (cnt : String → Nat) (ch : String),
      (diversityLoop cap cnt l).countP (fun v => v.channelId == ch)
        = min (cap - cnt ch) (l.countP (fun v => v.channelId == ch)) := by
  intro l
  induction l with
  | nil => intro cnt ch; simp [diversityLoop]
  | cons v vs ih =>
    intro cnt ch
    rw [diversityLoop]
    by_cases h : cnt v.channelId < cap
    · rw [if_pos h, List.countP_cons, List.countP_cons, ih]
      by_cases hc : v.channelId = ch
      · subst hc
        simp only [if_pos rfl, beq_self_eq_true, if_true]
        simp only [Nat.min_def]
        split_ifs <;> omega
      · have hch : ¬ ch = v.channelId := fun hq => hc hq.symm
        have hb : (v.channelId == ch) = false := by
          simp [hc]
        simp [hb, hch]
    · rw [if_neg h, ih, List.countP_cons]
      by_cases hc : v.channelId = ch
      · subst hc
        have h0 : cap - cnt v.channelId = 0 := by omega
        simp only [h0, Nat.min_def]
        split_ifs <;> omega
      · have hb : (v.channelId == ch) = false := by
          simp [hc]
        simp [hb]

lemma filterMap_ext {α β : Type} (f g : α → Option β) :
    ∀ l : List α, (∀ a ∈ l, f a = g a) → l.filterMap f = l.filterMap g := by
  intro l
  induction l with
  | nil => intro _; rfl
  | cons a as ih =>
    intro h
    rw [List.filterMap_cons, List.filterMap_cons, h a (List.mem_cons_self a as),
      ih (fun x hx => h x (List.mem_cons_of_mem a hx))]

lemma diversityLoop_positions (cap : Nat) :
    ∀ (l : List Video) (cnt : String → Nat),
      diversityLoop cap cnt l = (List.range l.length).filterMap (fun i =>
        match l.get? i with
        | some v =>
          if cnt v.channelId
              + (l.take i).countP (fun w => w.channelId == v.channelId) < cap
            then some v else none
        | none => none) := by
  intro l
  induction l with
  | nil => intro cnt; rfl
  | cons v vs ih =>
    intro cnt
    rw [diversityLoop, List.length_cons, List.range_succ_eq_map, List.filterMap_cons]
    by_cases h : cnt v.channelId < cap
    · rw [if_pos h]
      have hf0 : (match (v :: vs).get? 0 with
          | some w =>
            if cnt w.channelId
                + ((v :: vs).take 0).countP (fun u => u.channelId == w.channelId) < cap
              then some w else none
          | none => none) = some v := by
        simp [h]
      rw [hf0, List.filterMap_map, ih]
      dsimp only
      congr 1
      apply filterMap_ext
      intro i hi
      have hi2 : i < vs.length := List.mem_range.mp hi
      obtain ⟨w, hw⟩ : ∃ w, vs.get? i = some w := ⟨_, List.get?_eq_get hi2⟩
      simp only [Function.comp_apply, List.get?_cons_succ, hw, List.take_succ_cons,
        List.countP_cons]
      by_cases hch : w.channelId = v.channelId
      · rw [hch, if_pos rfl]
        exact if_congr (by simp only [beq_self_eq_true, eq_self_iff_true, if_true]; omega) rfl rfl
      · have hvw : ¬ v.channelId = w.channelId := fun hq => hch hq.symm
        have hb : (v.channelId == w.channelId) = false := by
          simp [hvw]
        rw [hb, if_neg hch]
        exact if_congr (by simp) rfl rfl
    · rw [if_neg h]
      have hf0 : (match (v :: vs).get? 0 with
          | some w =>
            if cnt w.channelId
                + ((v :: vs).take 0).countP (fun u => u.channelId == w.channelId) < cap
              then some w else none
          | none => none) = none := by
        simp [h]
      rw [hf0, List.filterMap_map, ih]
      dsimp only
      apply filterMap_ext
      intro i hi
      have hi2 : i < vs.length := List.mem_range.mp hi
      obtain ⟨w, hw⟩ : ∃ w, vs.get? i = some w := ⟨_, List.get?_eq_get hi2⟩
      simp only [Function.comp_apply, List.get?_cons_succ, hw, List.take_succ_cons,
        List.countP_cons]
      by_cases hch : w.channelId = v.channelId
      · rw [hch]
        exact if_congr (by simp only [beq_self_eq_true, eq_self_iff_true, if_true]; omega) rfl rfl
      · have hvw : ¬ v.channelId = w.channelId := fun hq => hch hq.symm
        have hb : (v.channelId == w.channelId) = false := by
          simp [hvw]
        rw [hb]
        exact if_congr (by simp) rfl rfl

/-- C2: for every input list and channel id, the diversity-capping stage of
`rankVideos` emits at most 4 items of that channel (exactly
`min 4 (number available)`), the emitted items form a sublist of the
score-sorted input (same relative order), and an item is emitted exactly
when fewer than 4 items of its channel occur before it in the input —
i.e. emission happens only while the channel's running counter, which
increments on emit, is below the cap. -/
theorem diversity_capping (l : List Video) (ch : String) :
    (diversityFilter l).countP (fun v => v.channelId == ch)
        = min MAX_FROM_SAME_CHANNEL (l.countP (fun v => v.channelId == ch))
      ∧ (diversityFilter l).countP (fun v => v.channelId == ch) ≤ 4
      ∧ List.Sublist (diversityFilter l) l
      ∧ diversityFilter l = (List.range l.length).filterMap (fun i =>
          match l.get? i with
          | some v =>
            if (l.take i).countP (fun w => w.channelId == v.channelId)
                < MAX_FROM_SAME_CHANNEL
              then some v else none
          | none => none) := by
  have hdf : diversityFilter l = diversityLoop MAX_FROM_SAME_CHANNEL (fun _ => 0) l := rfl
  have hcount := diversityLoop_countP MAX_FROM_SAME_CHANNEL l (fun _ => 0) ch
  refine ⟨?_, ?_, diversityLoop_sublist MAX_FROM_SAME_CHANNEL l (fun _ => 0), ?_⟩
  · rw [hdf, hcount]
    norm_num
  · rw [hdf, hcount]
    exact le_trans (min_le_left _ _) (by norm_num [MAX_FROM_SAME_CHANNEL])
  · rw [hdf, diversityLoop_positions MAX_FROM_SAME_CHANNEL l (fun _ => 0)]
    apply filterMap_ext
    intro i _
    cases hw : l.get? i with
    | none => rfl
    | some w => simp [Nat.zero_add]

/-! ### Home-feed page assembly (src/unnamed/part_000, `loadRecommendations`)

Each page of recommender output is walked once: an item whose id is already
in the session-wide seen-id set (`seenIdsRef`) is skipped, otherwise its id
is recorded and the item is routed to the shorts shelf or the main feed. -/

/-- The short-detection test of `loadRecommendations` (line 105):
`(seconds > 0 && seconds <= 60) || v.title.toLowerCase().includes('#shorts')`;
a `NaN` duration (modelled `none`) fails both numeric comparisons. -/
def isShortVideo (v : Video) : Bool :=
  (match parseDuration v.isoDuration v.duration with
    | some s => decide (0 < s) && decide (s ≤ 60)
    | none => false)
  || listIncludes (lowerList v.title.toList) "#shorts".toList

/-- The `for (const v of rawVideos)` routing loop (lines 100–112), with the
mutable `seenIdsRef` set threaded through.  Returns
(main-feed items, shorts items, seen-id set afterwards). -/
def routeLoop (seen : List String) : List Video → List Video × List Video × List String
  | [] => ([], [], seen)
  | v :: vs =>
    if v.id ∈ seen then routeLoop seen vs
    else if isShortVideo v then
      ((routeLoop (v.id :: seen) vs).1,
        v :: (routeLoop (v.id :: seen) vs).2.1,
        (routeLoop (v.id :: seen) vs).2.2)
    else
      (v :: (routeLoop (v.id :: seen) vs).1,
        (routeLoop (v.id :: seen) vs).2.1,
        (routeLoop (v.id :: seen) vs).2.2)

/-- A feed session across pages: run the routing loop on each page's raw
recommender output in order, carrying the seen-id set; record each page's
emitted ids (main feed followed by shorts shelf). -/
def runSession (seen : List String) : List (List Video) → List (List String)
  | [] => []
  | raw :: rest =>
    (((routeLoop seen raw).1.map Video.id) ++ ((routeLoop seen raw).2.1.map Video.id))
      :: runSession (routeLoop seen raw).2.2 rest

lemma routeLoop_emitted_not_seen :
    ∀ (raw : List Video) (seen : List String) (x : String),
      x ∈ (routeLoop seen raw).1.map Video.id ++ (routeLoop seen raw).2.1.map Video.id →
      x ∉ seen := by
  intro raw
  induction raw with
  | nil => intro seen x hx; simp [routeLoop] at hx
  | cons v vs ih =>
    intro seen x hx
    rw [routeLoop] at hx
    by_cases hv : v.id ∈ seen
    · rw [if_pos hv] at hx
      exact ih seen x hx
    · rw [if_neg hv] at hx
      by_cases hs : isShortVideo v
      · rw [if_pos hs] at hx
        simp only [List.map_cons, List.mem_append, List.mem_cons] at hx
        rcases hx with hx | hx | hx
        · exact fun h => (ih _ x (List.mem_append.mpr (Or.inl hx))) (List.mem_cons_of_mem _ h)
        · intro h; rw [hx] at h; exact hv h
        · exact fun h => (ih _ x (List.mem_append.mpr (Or.inr hx))) (List.mem_cons_of_mem _ h)
      · rw [if_neg hs] at hx
        simp only [List.map_cons, List.mem_append, List.mem_cons] at hx
        rcases hx with (hx | hx) | hx
        · intro h; rw [hx] at h; exact hv h
        · exact fun h => (ih _ x (List.mem_append.mpr (Or.inl hx))) (List.mem_cons_of_mem _ h)
        · exact fun h => (ih _ x (List.mem_append.mpr (Or.inr hx))) (List.mem_cons_of_mem _ h)

lemma routeLoop_seen_subset :
    ∀ (raw : List Video) (seen : List String) (x : String),
      x ∈ seen → x ∈ (routeLoop seen raw).2.2 := by
  intro raw
  induction raw with
  | nil => intro seen x hx; exact hx
  | cons v vs ih =>
    intro seen x hx
    rw [routeLoop]
    by_cases hv : v.id ∈ seen
    · rw [if_pos hv]
      exact ih seen x hx
    · rw [if_neg hv]
      by_cases hs : isShortVideo v
      · rw [if_pos hs]
        exact ih _ x (List.mem_cons_of_mem _ hx)
      · rw [if_neg hs]
        exact ih _ x (List.mem_cons_of_mem _ hx)

lemma routeLoop_emitted_in_final :
    ∀ (raw : List Video) (seen : List String) (x : String),
      x ∈ (routeLoop seen raw).1.map Video.id ++ (routeLoop seen raw).2.1.map Video.id →
      x ∈ (routeLoop seen raw).2.2 := by
  intro raw
  induction raw with
  | nil => intro seen x hx; simp [routeLoop] at hx
  | cons v vs ih =>
    intro seen x hx
    rw [routeLoop] at hx ⊢
    by_cases hv : v.id ∈ seen
    · rw [if_pos hv] at hx ⊢
      exact ih seen x hx
    · rw [if_neg hv] at hx ⊢
      by_cases hs : isShortVideo v
      · rw [if_pos hs] at hx ⊢
        simp only [List.map_cons, List.mem_append, List.mem_cons] at hx
        rcases hx with hx | hx | hx
        · exact ih _ x (List.mem_append.mpr (Or.inl hx))
        · rw [hx]; exact routeLoop_seen_subset vs _ _ (List.mem_cons_self _ _)
        · exact ih _ x (List.mem_append.mpr (Or.inr hx))
      · rw [if_neg hs] at hx ⊢
        simp only [List.map_cons, List.mem_append, List.mem_cons] at hx
        rcases hx with (hx | hx) | hx
        · rw [hx]; exact routeLoop_seen_subset vs _ _ (List.mem_cons_self _ _)
        · exact ih _ x (List.mem_append.mpr (Or.inl hx))
        · exact ih _ x (List.mem_append.mpr (Or.inr hx))

lemma runSession_emitted_not_seen :
    ∀ (pages : List (List Video)) (seen : List String) (k : Nat) (x : String),
      x ∈ (runSession seen pages).getD k [] → x ∉ seen := by
  intro pages
  induction pages with
  | nil => intro seen k x hx; simp [runSession] at hx
  | cons raw rest ih =>
    intro seen k x hx
    rw [runSession] at hx
    match k with
    | 0 =>
      rw [List.getD_cons_zero] at hx
      exact routeLoop_emitted_not_seen raw seen x hx
    | Nat.succ k =>
      rw [List.getD_cons_succ] at hx
      intro h
      exact ih _ k x hx (routeLoop_seen_subset raw seen x h)

lemma runSession_lt_disjoint :
    ∀ (pages : List (List Video)) (seen : List String) (i j : Nat), i < j →
      List.Disjoint ((runSession seen pages).getD i [])
        ((runSession seen pages).getD j []) := by
  intro pages
  induction pages with
  | nil => intro seen i j _ x hx; simp [runSession] at hx
  | cons raw rest ih =>
    intro seen i j hij
    match i, j with
    | 0, Nat.succ j =>
      intro x hx hx2
      rw [runSession, List.getD_cons_zero] at hx
      rw [runSession, List.getD_cons_succ] at hx2
      exact runSession_emitted_not_seen rest _ j x hx2
        (routeLoop_emitted_in_final raw seen x hx)
    | Nat.succ i, Nat.succ j =>
      intro x hx hx2
      rw [runSession, List.getD_cons_succ] at hx hx2
      exact ih _ i j (by omega) hx hx2

/-- C4: for any two distinct pages of one feed session (the seen-id set
carried across pages, no reset in between), the emitted id sets are
disjoint — an id already in the session's seen-id set is skipped, so no id
appears twice across pages. -/
theorem session_pages_disjoint (seen : List String) (pages : List (List Video))
    (i j : Nat) (hij : i ≠ j) :
    List.Disjoint ((runSession seen pages).getD i [])
      ((runSession seen pages).getD j []) := by
  rcases Nat.lt_or_ge i j with h | h
  · exact runSession_lt_disjoint pages seen i j h
  · have hji : j < i := by omega
    exact (runSession_lt_disjoint pages seen j i hji).symm

/-- C4 (witness): a concrete two-page session in which page two repeats an
id from page one; the emitted id sets are disjoint. -/
theorem session_pages_disjoint_witness :
    List.Disjoint
      ((runSession []
        [[⟨"idA", "t", "c", "ch", none, "", "", "", "0:30"⟩],
         [⟨"idA", "t", "c", "ch", none, "", "", "", "0:30"⟩,
          ⟨"idB", "u", "c", "ch", none, "", "", "", "2:00"⟩]]).getD 0 [])
      ((runSession []
        [[⟨"idA", "t", "c", "ch", none, "", "", "", "0:30"⟩],
         [⟨"idA", "t", "c", "ch", none, "", "", "", "0:30"⟩,
          ⟨"idB", "u", "c", "ch", none, "", "", "", "2:00"⟩]]).getD 1 []) :=
  session_pages_disjoint []
    [[⟨"idA", "t", "c", "ch", none, "", "", "", "0:30"⟩],
     [⟨"idA", "t", "c", "ch", none, "", "", "", "0:30"⟩,
      ⟨"idB", "u", "c", "ch", none, "", "", "", "2:00"⟩]] 0 1 (by decide)

/-- C10: in home-feed page assembly, a new item (id not yet seen; the
recommender returns id-distinct items) is routed to the shorts shelf and
never to the main feed when its parsed duration is between 1 and 60 seconds
inclusive or its lower-cased title contains `#shorts`; every other new item
goes to the main feed and not to the shorts shelf. -/
theorem shorts_routing :
    ∀ (raw : List Video) (seen : List String), (raw.map Video.id).Nodup →
      ∀ v ∈ raw, v.id ∉ seen →
        (isShortVideo v = true →
          v ∈ (routeLoop seen raw).2.1 ∧ v ∉ (routeLoop seen raw).1)
        ∧ (isShortVideo v = false →
          v ∈ (routeLoop seen raw).1 ∧ v ∉ (routeLoop seen raw).2.1) := by
  intro raw
  induction raw with
  | nil => intro seen _ v hv; exact absurd hv (List.not_mem_nil v)
  | cons w vs ih =>
    intro seen hnd v hv hvseen
    have hndtail : (vs.map Video.id).Nodup := (List.nodup_cons.mp (by simpa using hnd)).2
    have hwid : w.id ∉ vs.map Video.id := (List.nodup_cons.mp (by simpa using hnd)).1
    rcases List.mem_cons.mp hv with hveq | hvtail
    · subst hveq
      rw [routeLoop, if_neg hvseen]
      by_cases hs : isShortVideo v = true
      · rw [if_pos hs]
        refine ⟨fun _ => ⟨List.mem_cons_self _ _, fun hmem => ?_⟩, fun hf => ?_⟩
        · exact routeLoop_emitted_not_seen vs (v.id :: seen) v.id
            (List.mem_append.mpr (Or.inl (List.mem_map_of_mem Video.id hmem)))
            (List.mem_cons_self _ _)
        · rw [hs] at hf; cases hf
      · have hs' : isShortVideo v = false := Bool.not_eq_true _ ▸ Bool.eq_false_iff.mpr hs
        rw [if_neg hs]
        refine ⟨fun ht => ?_, fun _ => ⟨List.mem_cons_self _ _, fun hmem => ?_⟩⟩
        · rw [ht] at hs'; cases hs'
        · exact routeLoop_emitted_not_seen vs (v.id :: seen) v.id
            (List.mem_append.mpr (Or.inr (List.mem_map_of_mem Video.id hmem)))
            (List.mem_cons_self _ _)
    · have hne : v.id ≠ w.id := by
        intro he
        exact hwid (he ▸ List.mem_map_of_mem Video.id hvtail)
      rw [routeLoop]
      by_cases hw : w.id ∈ seen
      · rw [if_pos hw]
        exact ih seen hndtail v hvtail hvseen
      · rw [if_neg hw]
        have hvseen2 : v.id ∉ w.id :: seen := by
          simp [hne, hvseen]
        have hrec := ih (w.id :: seen) hndtail v hvtail hvseen2
        have hvw : v ≠ w := fun he => hne (by rw [he])
        by_cases hsw : isShortVideo w = true
        · rw [if_pos hsw]
          refine ⟨fun ht => ⟨List.mem_cons_of_mem _ (hrec.1 ht).1, (hrec.1 ht).2⟩,
            fun hf => ⟨(hrec.2 hf).1, fun hmem => ?_⟩⟩
          rcases List.mem_cons.mp hmem with he | hmem2
          · exact hvw he
          · exact (hrec.2 hf).2 hmem2
        · rw [if_neg hsw]
          refine ⟨fun ht => ⟨(hrec.1 ht).1, fun hmem => ?_⟩,
            fun hf => ⟨List.mem_cons_of_mem _ (hrec.2 hf).1, (hrec.2 hf).2⟩⟩
          rcases List.mem_cons.mp hmem with he | hmem2
          · exact hvw he
          · exact (hrec.1 ht).2 hmem2

/-- C10 (witness): a 30-second item is routed to the shorts shelf and not
to the main feed in a concrete two-item page. -/
theorem shorts_routing_witness :
    (isShortVideo ⟨"idS", "t", "c", "ch", none, "", "", "", "0:30"⟩ = true →
      ⟨"idS", "t", "c", "ch", none, "", "", "", "0:30"⟩ ∈
        (routeLoop [] [⟨"idS", "t", "c", "ch", none, "", "", "", "0:30"⟩,
          ⟨"idL", "u", "c", "ch", none, "", "", "", "2:00"⟩]).2.1
      ∧ ⟨"idS", "t", "c", "ch", none, "", "", "", "0:30"⟩ ∉
        (routeLoop [] [⟨"idS", "t", "c", "ch", none, "", "", "", "0:30"⟩,
          ⟨"idL", "u", "c", "ch", none, "", "", "", "2:00"⟩]).1)
    ∧ (isShortVideo ⟨"idS", "t", "c", "ch", none, "", "", "", "0:30"⟩ = false →
      ⟨"idS", "t", "c", "ch", none, "", "", "", "0:30"⟩ ∈
        (routeLoop [] [⟨"idS", "t", "c", "ch", none, "", "", "", "0:30"⟩,
          ⟨"idL", "u", "c", "ch", none, "", "", "", "2:00"⟩]).1
      ∧ ⟨"idS", "t", "c", "ch", none, "", "", "", "0:30"⟩ ∉
        (routeLoop [] [⟨"idS", "t", "c", "ch", none, "", "", "", "0:30"⟩,
          ⟨"idL", "u", "c", "ch", none, "", "", "", "2:00"⟩]).2.1) :=
  shorts_routing
    [⟨"idS", "t", "c", "ch", none, "", "", "", "0:30"⟩,
      ⟨"idL", "u", "c", "ch", none, "", "", "", "2:00"⟩] [] (by decide)
    ⟨"idS", "t", "c", "ch", none, "", "", "", "0:30"⟩ (by decide) (by decide)

/-! ### Keyword extraction (src/utils/xrai.ts lines 22–65)

The tokenizer itself (`Intl.Segmenter` when the runtime provides it, a
Unicode-class split otherwise) is environment-dependent and is modelled as
an explicit parameter `seg`; the filtering and deduplication applied to its
output are embedded from the source. -/

def JAPANESE_STOP_WORDS : List String :=
  ["の", "に", "は", "を", "が", "で", "です", "ます", "こと", "もの", "これ", "それ", "あれ",
   "いる", "する", "ある", "ない", "から", "まで", "と", "も", "や", "など", "さん", "ちゃん",
   "about", "and", "the", "to", "a", "of", "in", "for", "on", "with", "as", "at"]

/-- The character class `[a-zA-Z0-9]`. -/
def isAsciiAlnum (c : Char) : Bool :=
  c.isDigit || ('a' ≤ c && c ≤ 'z') || ('A' ≤ c && c ≤ 'Z')

/-- The test `/^[a-zA-Z0-9]$/.test(word)`. -/
def isSingleAlnum (w : String) : Bool :=
  match w.toList with
  | [c] => isAsciiAlnum c
  | _ => false

/-- The test `/^\d+$/.test(word)`. -/
def isAllDigits (w : String) : Bool :=
  !w.toList.isEmpty && w.toList.all Char.isDigit

/-- The keep-condition of the keyword filter (lines 57–62): not a
non-alphanumeric single character, not a stop word, not purely numeric. -/
def keywordFilter (w : String) : Bool :=
  !(decide (w.length ≤ 1) && !isSingleAlnum w)
    && !JAPANESE_STOP_WORDS.contains w && !isAllDigits w

/-- `Array.from(new Set(xs))`: first-occurrence deduplication. -/
def jsSetDedupAux {α : Type} [DecidableEq α] (seen : List α) : List α → List α
  | [] => []
  | x :: xs => if x ∈ seen then jsSetDedupAux seen xs else x :: jsSetDedupAux (x :: seen) xs

/-- JS `Array.from(new Set(l))`. -/
def jsSetDedup {α : Type} [DecidableEq α] (l : List α) : List α :=
  jsSetDedupAux [] l

/-- `extractKeywords(text)`: lower-case, segment (the `seg` parameter
models `Intl.Segmenter`'s word-like segments resp. the fallback split),
filter, deduplicate. -/
def extractKeywords (seg : String → List String) (text : String) : List String :=
  if text = "" then []
  else jsSetDedup ((seg (lowerStr text)).filter keywordFilter)

/-! ### User profile building (src/utils/xrai.ts lines 6–8 and 69–99) -/

/-- The `UserProfile` interface of src/utils/xrai.ts lines 6–8: a single
field, the keyword → accumulated-weight map (an ES `Map<string, number>`
with `get(kw) || 0` reads, modelled as a total function defaulting to 0). -/
structure UserProfile where
  keywords : String → ℝ

/-- The `UserSources` interface (lines 10–14). -/
structure UserSources where
  watchHistory : List Video
  searchHistory : List String
  subscribedChannels : List Channel

/-- The `addKeywords` closure of `buildUserProfile` (lines 72–76): add
`weight` to every extracted keyword of `text`. -/
noncomputable def addKeywords (seg : String → List String) (text : String)
    (weight : ℝ) (m : String → ℝ) : String → ℝ :=
  fun k => if k ∈ extractKeywords seg text then m k + weight else m k

/-- `buildUserProfile(sources)` (lines 69–99): search terms (newest 20,
base weight 5.0, decay `exp(-i/5)`), watch history (newest 50, title at
base weight `3.0*exp(-i/10)`, channel name at that weight times the 1.2
affinity factor), subscriptions (flat weight 2.0). -/
noncomputable def buildUserProfile (seg : String → List String)
    (sources : UserSources) : UserProfile :=
  let m1 := ((sources.searchHistory.take 20).enum).foldl
    (fun m p => addKeywords seg p.2 (5.0 * Real.exp (-(p.1 : ℝ) / 5)) m)
    (fun _ => 0)
  let m2 := ((sources.watchHistory.take 50).enum).foldl
    (fun m p => addKeywords seg p.2.channelName
      ((3.0 * Real.exp (-(p.1 : ℝ) / 10)) * 1.2)
      (addKeywords seg p.2.title (3.0 * Real.exp (-(p.1 : ℝ) / 10)) m)) m1
  let m3 := sources.subscribedChannels.foldl
    (fun m c => addKeywords seg c.name 2.0 m) m2
  ⟨m3⟩

lemma foldl_addKeywords_value {α : Type} (seg : String → List String)
    (txt : α → String) (w : α → ℝ) :
    ∀ (l : List α) (m : String → ℝ) (k : String),
      (l.foldl (fun m a => addKeywords seg (txt a) (w a) m) m) k
        = m k + ((l.map (fun a =>
            if k ∈ extractKeywords seg (txt a) then w a else 0)).sum) := by
  intro l
  induction l with
  | nil => intro m k; simp
  | cons a as ih =>
    intro m k
    rw [List.foldl_cons, ih, List.map_cons, List.sum_cons]
    simp only [addKeywords]
    by_cases hk : k ∈ extractKeywords seg (txt a)
    · rw [if_pos hk, if_pos hk]; ring
    · rw [if_neg hk, if_neg hk]; ring

lemma foldl_addKeywords2_value {α : Type} (seg : String → List String)
    (t1 t2 : α → String) (w1 w2 : α → ℝ) :
    ∀ (l : List α) (m : String → ℝ) (k : String),
      (l.foldl (fun m a =>
          addKeywords seg (t2 a) (w2 a) (addKeywords seg (t1 a) (w1 a) m)) m) k
        = m k + ((l.map (fun a =>
            (if k ∈ extractKeywords seg (t1 a) then w1 a else 0)
              + (if k ∈ extractKeywords seg (t2 a) then w2 a else 0))).sum) := by
  intro l
  induction l with
  | nil => intro m k; simp
  | cons a as ih =>
    intro m k
    rw [List.foldl_cons, ih, List.map_cons, List.sum_cons]
    simp only [addKeywords]
    by_cases h1 : k ∈ extractKeywords seg (t1 a)
    · by_cases h2 : k ∈ extractKeywords seg (t2 a)
      · rw [if_pos h2, if_pos h1, if_pos h1, if_pos h2]; ring
      · rw [if_neg h2, if_pos h1, if_pos h1, if_neg h2]; ring
    · by_cases h2 : k ∈ extractKeywords seg (t2 a)
      · rw [if_pos h2, if_neg h1, if_neg h1, if_pos h2]; ring
      · rw [if_neg h2, if_neg h1, if_neg h1, if_neg h2]; ring

/-- C6: for every keyword, the accumulated profile weight is the sum over
all sources of `baseWeight * exp(-i / halfLife)` contributions: search
terms (index within the 20 most recent, base 5.0, half-life 5), watch
titles (index within the 50 most recent, base 3.0, half-life 10), watch
channel names (same decayed weight times the 1.2 affinity factor), and
subscriptions (flat, undecayed 2.0); contributions add across sources. -/
theorem profile_accumulation (seg : String → List String) (s : UserSources)
    (k : String) :
    (buildUserProfile seg s).keywords k
      = (((s.searchHistory.take 20).enum).map (fun p =>
            if k ∈ extractKeywords seg p.2
              then 5.0 * Real.exp (-(p.1 : ℝ) / 5) else 0)).sum
        + (((s.watchHistory.take 50).enum).map (fun p =>
            (if k ∈ extractKeywords seg p.2.title
              then 3.0 * Real.exp (-(p.1 : ℝ) / 10) else 0)
              + (if k ∈ extractKeywords seg p.2.channelName
                then (3.0 * Real.exp (-(p.1 : ℝ) / 10)) * 1.2 else 0))).sum
        + ((s.subscribedChannels.map (fun c =>
            if k ∈ extractKeywords seg c.name then (2.0 : ℝ) else 0)).sum) := by
  simp only [buildUserProfile]
  rw [foldl_addKeywords_value seg (fun c : Channel => c.name) (fun _ => (2.0 : ℝ))]
  rw [foldl_addKeywords2_value seg (fun p : Nat × Video => p.2.title)
    (fun p : Nat × Video => p.2.channelName)
    (fun p : Nat × Video => 3.0 * Real.exp (-(p.1 : ℝ) / 10))
    (fun p : Nat × Video => (3.0 * Real.exp (-(p.1 : ℝ) / 10)) * 1.2)]
  rw [foldl_addKeywords_value seg (fun p : Nat × String => p.2)
    (fun p : Nat × String => 5.0 * Real.exp (-(p.1 : ℝ) / 5))]
  ring

/-- C9 (counterexample): at a concrete input, the profile returned by
`buildUserProfile` is exhausted by its keyword map — the embedded
`UserProfile` record (src/utils/xrai.ts lines 6–8) consists of the
`keywords` field alone, so no derived Euclidean-norm magnitude is contained
in it or made available to callers. -/
theorem userProfile_no_magnitude_counterexample :
    buildUserProfile (fun s => [s]) ⟨[], ["minecraft"], []⟩
      = UserProfile.mk
          (buildUserProfile (fun s => [s]) ⟨[], ["minecraft"], []⟩).keywords := rfl

/-- C9 (amended): the `UserProfile` produced by `buildUserProfile` contains
the keyword-to-weight map and nothing else; no sqrt-of-sum-of-squares
magnitude is computed or exposed. -/
theorem userProfile_keywords_only (seg : String → List String) (s : UserSources) :
    buildUserProfile seg s = UserProfile.mk (buildUserProfile seg s).keywords := rfl

/-! ### Scoring helpers (src/utils/xrai.ts lines 103–130) -/

/-- First decimal number `/(\d+(\.\d+)?)/` in a character list: the integer
digit run and the optional fractional digit run (empty when absent). -/
def firstNumber : List Char → Option (List Char × List Char)
  | [] => none
  | c :: rest =>
    if c.isDigit then
      match (c :: rest).dropWhile Char.isDigit with
      | '.' :: r2 =>
        if (r2.takeWhile Char.isDigit).isEmpty then
          some ((c :: rest).takeWhile Char.isDigit, [])
        else some ((c :: rest).takeWhile Char.isDigit, r2.takeWhile Char.isDigit)
      | _ => some ((c :: rest).takeWhile Char.isDigit, [])
    else firstNumber rest

/-- First plain digit run `/(\d+)/`, as used by `parseUploadedAt`. -/
def firstDigitRun (l : List Char) : List Char :=
  (l.dropWhile (fun c => !c.isDigit)).takeWhile Char.isDigit

/-- `parseUploadedAt(uploadedAt)` (lines 103–116): age in days; `999` for
empty or unrecognized text. -/
def parseUploadedAt (uploadedAt : String) : Nat :=
  if uploadedAt = "" then 999
  else
    let text := lowerList uploadedAt.toList
    let num := digitsToNat (firstDigitRun text)
    if listIncludes text "分前".toList || listIncludes text "minutes ago".toList then 0
    else if listIncludes text "時間前".toList || listIncludes text "hours ago".toList then 0
    else if listIncludes text "日前".toList || listIncludes text "days ago".toList then num
    else if listIncludes text "週間前".toList || listIncludes text "weeks ago".toList then
      num * 7
    else if listIncludes text "か月前".toList || listIncludes text "months ago".toList then
      num * 30
    else if listIncludes text "年前".toList || listIncludes text "years ago".toList then
      num * 365
    else 999

/-- `parseViews(viewsStr)` (lines 118–130): locale magnitude suffix times
the first decimal number, `0` when absent. -/
def parseViews (viewsStr : String) : ℚ :=
  if viewsStr = "" then 0
  else
    let l := viewsStr.toList
    let mult : ℚ :=
      if l.contains '万' then 10000
      else if l.contains '億' then 100000000
      else if (l.map jsUpperChar).contains 'K' then 1000
      else if (l.map jsUpperChar).contains 'M' then 1000000
      else if (l.map jsUpperChar).contains 'B' then 1000000000
      else 1
    match firstNumber l with
    | none => 0
    | some (ds, fs) =>
      ((digitsToNat ds : ℚ) + (digitsToNat fs : ℚ) / 10 ^ fs.length) * mult

/-! ### Scoring and ranking (src/utils/xrai.ts lines 132–190) -/

/-- The `ScoringContext` interface (lines 16–20). -/
structure ScoringContext where
  ngKeywords : List String
  ngChannels : List String
  watchHistory : List Video

/-- The normalized text of a video used by `rankVideos` (line 144):
`` `${video.title} ${video.channelName} ${video.descriptionSnippet || ''}`.toLowerCase() ``. -/
def fullTextLowerOf (v : Video) : String :=
  lowerStr (v.title ++ " " ++ v.channelName ++ " " ++ v.descriptionSnippet.getD "")

/-- The ingestion checks of the `rankVideos` loop (lines 141–146): falsy id
skip and negative (NG keyword / NG channel) filtering.  A video is scored
iff this holds. -/
def accepts (ctx : ScoringContext) (v : Video) : Bool :=
  !decide (v.id = "")
    && !(ctx.ngKeywords.any (fun ng =>
        listIncludes (fullTextLowerOf v).toList (lowerStr ng).toList))
    && !(ctx.ngChannels.contains v.channelId)

/-- Relevance (lines 154–161): sum of the profile weights of the video's
extracted keywords (absent keywords weigh 0 in the total-function model). -/
noncomputable def relevanceScoreOf (seg : String → List String)
    (profile : UserProfile) (v : Video) : ℝ :=
  ((extractKeywords seg (fullTextLowerOf v)).map (fun kw => profile.keywords kw)).sum

/-- Popularity (lines 163–165): `Math.log10(views + 1)`. -/
noncomputable def popularityScoreOf (v : Video) : ℝ :=
  Real.logb 10 ((parseViews v.views : ℝ) + 1)

/-- Freshness (lines 167–171): `5` within 3 days, else
`max(0, 4 - log2(daysAgo))`. -/
noncomputable def freshnessScoreOf (v : Video) : ℝ :=
  if parseUploadedAt v.uploadedAt ≤ 3 then 5
  else max 0 (4 - Real.logb 2 ((parseUploadedAt v.uploadedAt : ℕ) : ℝ))

/-- History penalty (lines 138, 148–152): `0.1` when the id is in the
watch-history id set, else `1.0`. -/
def historyPenaltyOf (ctx : ScoringContext) (v : Video) : ℝ :=
  if v.id ∈ ctx.watchHistory.map Video.id then 0.1 else 1.0

/-- The final score of one accepted video (lines 173–184), with the
`Math.random()` draw passed in as `r`:
`baseScore * (1 + (r - 0.5) * 0.4)`. -/
noncomputable def scoreVideo (seg : String → List String) (profile : UserProfile)
    (ctx : ScoringContext) (v : Video) (r : ℝ) : ℝ :=
  ((relevanceScoreOf seg profile v * 2.5) + (popularityScoreOf v * 0.5)
      + (freshnessScoreOf v * 1.0))
    * historyPenaltyOf ctx v * (1 + (r - 0.5) * 0.4)

/-- The videos that survive the ingestion checks, in input order — exactly
the videos the loop scores. -/
def acceptedVideos (ctx : ScoringContext) (videos : List Video) : List Video :=
  videos.filter (accepts ctx)

/-- The `scoredVideos` list built by the loop (lines 137–187): the accepted
videos paired with their final scores, the `k`-th `Math.random()` call
modelled as `jit k`. -/
noncomputable def scoreVideos (seg : String → List String) (jit : Nat → ℝ)
    (profile : UserProfile) (ctx : ScoringContext) (videos : List Video) :
    List (Video × ℝ) :=
  (acceptedVideos ctx videos).enum.map
    (fun p => (p.2, scoreVideo seg profile ctx p.2 (jit p.1)))

/-- C1: every video accepted by `rankVideos` (not dropped by the id, NG
keyword, or NG channel checks) receives the final score
`((relevance*2.5) + (popularity*0.5) + (freshness*1.0)) * historyPenalty`
multiplied by a jitter factor lying in `[0.8, 1.2]`, where the component
definitions embed the source's relevance / popularity / freshness /
history-penalty computations. -/
theorem score_formula (seg : String → List String) (jit : Nat → ℝ)
    (profile : UserProfile) (ctx : ScoringContext) (videos : List Video)
    (hj : ∀ i, 0 ≤ jit i ∧ jit i < 1) :
    ∀ p ∈ scoreVideos seg jit profile ctx videos,
      ∃ c : ℝ, 0.8 ≤ c ∧ c ≤ 1.2 ∧
        p.2 = ((relevanceScoreOf seg profile p.1 * 2.5) + (popularityScoreOf p.1 * 0.5)
            + (freshnessScoreOf p.1 * 1.0))
          * historyPenaltyOf ctx p.1 * c := by
  intro p hp
  rw [scoreVideos] at hp
  rcases List.mem_map.mp hp with ⟨q, _, hpq⟩
  subst hpq
  refine ⟨1 + (jit q.1 - 0.5) * 0.4, ?_, ?_, rfl⟩
  · have h0 := (hj q.1).1
    linarith
  · have h1 := (hj q.1).2
    linarith

/-- A segmenter returning no word-like segments (a legal `Intl.Segmenter`
behaviour for text with no word characters), used for concrete witnesses. -/
def segEmpty : String → List String := fun _ => []

/-- A concrete sample video used by witnesses. -/
def sampleVideo : Video := ⟨"vid00000001", "Title", "Chan", "chanId1", none, "100", "2日前", "", ""⟩

/-- An empty scoring context (no NG keywords, no NG channels, no history). -/
def emptyScoringCtx : ScoringContext := ⟨[], [], []⟩

/-- The profile with all weights zero. -/
noncomputable def zeroProfile : UserProfile := ⟨fun _ => 0⟩

/-- C1 (witness): the score formula instantiated at a concrete accepted
video, zero profile and jitter draw 1/2. -/
theorem score_formula_witness :
    ∃ c : ℝ, 0.8 ≤ c ∧ c ≤ 1.2 ∧
      ((sampleVideo, scoreVideo segEmpty zeroProfile emptyScoringCtx sampleVideo
          ((fun _ => (1 : ℝ) / 2) 0)) : Video × ℝ).2
        = ((relevanceScoreOf segEmpty zeroProfile sampleVideo * 2.5)
            + (popularityScoreOf sampleVideo * 0.5)
            + (freshnessScoreOf sampleVideo * 1.0))
          * historyPenaltyOf emptyScoringCtx sampleVideo * c :=
  score_formula segEmpty (fun _ => (1 : ℝ) / 2) zeroProfile emptyScoringCtx [sampleVideo]
    (fun _ => ⟨by norm_num, by norm_num⟩)
    (sampleVideo, scoreVideo segEmpty zeroProfile emptyScoringCtx sampleVideo
      ((fun _ => (1 : ℝ) / 2) 0))
    (List.mem_singleton.mpr rfl)

/-! ### Deep-analyzer validation and ingestion
(src/utils/recommendation.ts lines 5–92 and 194–212) -/

/-- The fixed news/politics noise block list (lines 8–14). -/
def NOISE_BLOCK_KEYWORDS : List String :=
  ["ニュース", "News", "報道", "政治", "首相", "大統領", "内閣",
   "事件", "事故", "逮捕", "裁判", "速報", "会見", "訃報", "地震",
   "津波", "災害", "炎上", "物申す", "批判", "晒し", "閲覧注意",
   "衆院選", "参院選", "選挙", "与党", "野党", "政策",
   "NHK", "日テレ", "FNN", "TBS", "ANN", "テレ東"]

/-- The character test behind `/[一-龠]+|[ぁ-ゔ]+|[ァ-ヴー]+/` (line 45). -/
def isJapaneseChar (c : Char) : Bool :=
  ('一' ≤ c && c ≤ '龠') || ('ぁ' ≤ c && c ≤ 'ゔ') || ('ァ' ≤ c && c ≤ 'ヴ') || c = 'ー'

/-- `containsJapanese(text)` (lines 44–46). -/
def containsJapanese (text : String) : Bool :=
  text.toList.any isJapaneseChar

/-- The `RecommendationSource` interface of the deep analyzer (lines 22–31). -/
structure DeepRecommendationSource where
  searchHistory : List String
  watchHistory : List Video
  subscribedChannels : List Channel
  preferredGenres : List String
  preferredChannels : List String
  ngKeywords : List String
  ngChannels : List String
  page : Nat

/-- `isValidRecommendation(video, source)` (lines 62–92): Xerox brand
filter, noise/news filter, user NG keyword and NG channel filters.  (The
Japanese-content branch at lines 85–89 has an empty body and therefore
never rejects; it is omitted.) -/
def isValidRecommendation (v : Video) (source : DeepRecommendationSource) : Bool :=
  !(listIncludes (lowerStr v.title ++ " " ++ lowerStr v.channelName).toList "xerox".toList
      && !decide (v.channelId = "UCCMV3NfZk_NB-MmUvHj6aFw"))
    && !(NOISE_BLOCK_KEYWORDS.any (fun word =>
        listIncludes (lowerStr v.title ++ " " ++ lowerStr v.channelName).toList
          (lowerStr word).toList))
    && !(source.ngKeywords.any (fun ng =>
        listIncludes (lowerStr v.title ++ " " ++ lowerStr v.channelName).toList
          (lowerStr ng).toList))
    && !(source.ngChannels.contains v.channelId)

/-- The filtering/deduplication loop of `getDeeplyAnalyzedRecommendations`
(lines 201–210): skip falsy ids, in-batch duplicates and recent-history
ids, then keep validated items, recording their ids. -/
def deepDedupLoop (source : DeepRecommendationSource)
    (seenIds recentHistoryIds : List String) : List Video → List Video
  | [] => []
  | v :: vs =>
    if v.id = "" then deepDedupLoop source seenIds recentHistoryIds vs
    else if v.id ∈ seenIds then deepDedupLoop source seenIds recentHistoryIds vs
    else if v.id ∈ recentHistoryIds then deepDedupLoop source seenIds recentHistoryIds vs
    else if isValidRecommendation v source then
      v :: deepDedupLoop source (v.id :: seenIds) recentHistoryIds vs
    else deepDedupLoop source seenIds recentHistoryIds vs

/-- The catalog's item-id format, `[A-Za-z0-9_-]{11}` (the shape the app
itself extracts video ids with, src/pages/LiteModePage.tsx line 21). -/
def isCatalogIdShape (s : String) : Bool :=
  decide (s.toList.length = 11)
    && s.toList.all (fun c => isAsciiAlnum c || c = '_' || c = '-')

/-- C8 (counterexample): a video whose id `"abc"` does not match the
catalog id shape nevertheless passes the ingestion checks of `rankVideos`
and reaches scoring — only falsy (empty) ids are dropped. -/
theorem invalid_id_scored_counterexample :
    isCatalogIdShape "abc" = false
      ∧ (⟨"abc", "Title", "Chan", "chanId1", none, "", "", "", ""⟩ : Video)
          ∈ acceptedVideos ⟨[], [], []⟩
            [⟨"abc", "Title", "Chan", "chanId1", none, "", "", "", ""⟩]
      ∧ (⟨"abc", "Title", "Chan", "chanId1", none, "", "", "", ""⟩ : Video)
          ∈ deepDedupLoop ⟨[], [], [], [], [], [], [], 1⟩ [] []
            [⟨"abc", "Title", "Chan", "chanId1", none, "", "", "", ""⟩] := by
  refine ⟨by decide, ?_, ?_⟩
  · decide
  · decide

/-- C8 (amended): only items with a missing (empty, falsy) id are dropped
at ingestion, in both the `rankVideos` scoring loop and the deep analyzer's
filtering loop; ids are not validated against the catalog id format, so a
non-empty id of invalid shape still reaches scoring. -/
theorem invalid_id_amended :
    (∀ (ctx : ScoringContext) (videos : List Video) (v : Video),
        v ∈ acceptedVideos ctx videos → ¬ v.id = "")
      ∧ (∀ (source : DeepRecommendationSource) (seen recent : List String)
          (l : List Video) (v : Video),
        v ∈ deepDedupLoop source seen recent l → ¬ v.id = "") := by
  constructor
  · intro ctx videos v hv
    have h2 := (List.mem_filter.mp hv).2
    simp only [accepts, Bool.and_eq_true, Bool.not_eq_true', decide_eq_false_iff_not] at h2
    exact h2.1.1
  · intro source seen recent l
    induction l generalizing seen with
    | nil => intro v hv; simp [deepDedupLoop] at hv
    | cons w vs ih =>
      intro v hv
      rw [deepDedupLoop] at hv
      by_cases h0 : w.id = ""
      · rw [if_pos h0] at hv
        exact ih seen v hv
      · rw [if_neg h0] at hv
        by_cases h1 : w.id ∈ seen
        · rw [if_pos h1] at hv
          exact ih seen v hv
        · rw [if_neg h1] at hv
          by_cases h2 : w.id ∈ recent
          · rw [if_pos h2] at hv
            exact ih seen v hv
          · rw [if_neg h2] at hv
            by_cases h3 : isValidRecommendation w source = true
            · rw [if_pos h3] at hv
              rcases List.mem_cons.mp hv with he | hm
              · rw [he]; exact h0
              · exact ih (w.id :: seen) v hm
            · rw [if_neg h3] at hv
              exact ih seen v hv

/-- C8 (witness): the amended theorem at a concrete accepted video with a
non-empty id. -/
theorem invalid_id_amended_witness :
    ¬ (⟨"vid00000001", "Title", "Chan", "chanId1", none, "100", "2日前", "", ""⟩ : Video).id
        = "" :=
  invalid_id_amended.1 ⟨[], [], []⟩
    [⟨"vid00000001", "Title", "Chan", "chanId1", none, "100", "2日前", "", ""⟩]
    ⟨"vid00000001", "Title", "Chan", "chanId1", none, "100", "2日前", "", ""⟩ (by decide)

/-! ### XRAI recommendation pipeline
(src/utils/recommendation.ts lines 214–370, `getXraiRecommendations`) -/

/-- Drop characters up to and including the first occurrence of `close`;
`none` when `close` does not occur (the regex then has no match). -/
def dropThrough (close : Char) : List Char → Option (List Char)
  | [] => none
  | c :: r => if c = close then some r else dropThrough close r

lemma dropThrough_length (close : Char) :
    ∀ (l r : List Char), dropThrough close l = some r → r.length < l.length := by
  intro l
  induction l with
  | nil => intro r h; cases h
  | cons c cs ih =>
    intro r h
    rw [dropThrough] at h
    by_cases hc : c = close
    · rw [if_pos hc] at h
      cases h
      simp
    · rw [if_neg hc] at h
      have := ih r h
      simp only [List.length_cons]
      omega

/-- The global replace `/【.*?】|\[.*?\]|\(.*?\)/g → ''` of
`cleanTitleForSearch` (line 245): remove every non-greedy bracketed span. -/
def stripBrackets : List Char → List Char
  | [] => []
  | c :: rest =>
    if c = '【' then
      match h : dropThrough '】' rest with
      | some r => stripBrackets r
      | none => c :: stripBrackets rest
    else if c = '[' then
      match h : dropThrough ']' rest with
      | some r => stripBrackets r
      | none => c :: stripBrackets rest
    else if c = '(' then
      match h : dropThrough ')' rest with
      | some r => stripBrackets r
      | none => c :: stripBrackets rest
    else c :: stripBrackets rest
termination_by l => l.length
decreasing_by
  all_goals simp only [List.length_cons]
  all_goals try omega
  all_goals exact Nat.lt_succ_of_lt (dropThrough_length _ _ _ h)

/-- JS `String.prototype.trim`. -/
def trimList (l : List Char) : List Char :=
  ((l.dropWhile Char.isWhitespace).reverse.dropWhile Char.isWhitespace).reverse

/-- `cleanTitleForSearch(title)` (lines 243–246): strip bracketed spans,
trim, split on single spaces, keep the first 4 parts, re-join. -/
def cleanTitleForSearch (title : String) : String :=
  String.mk (List.intercalate [' ']
    ((splitOnChar ' ' (trimList (stripBrackets title.toList))).take 4))

/-- Swap two positions of a list (the destructuring swap of Fisher-Yates);
out-of-range indices leave the list unchanged. -/
def listSwap {α : Type} (l : List α) (i j : Nat) : List α :=
  match l.get? i, l.get? j with
  | some x, some y => (l.set i y).set j x
  | _, _ => l

/-- The Fisher-Yates loop of `shuffleArray` (lines 233–240), counting the
loop variable down; `rand i % (i+1)` models
`Math.floor(Math.random() * (i + 1))`. -/
def fyLoop {α : Type} (rand : Nat → Nat) : List α → Nat → List α
  | l, 0 => l
  | l, Nat.succ i => fyLoop rand (listSwap l (i + 1) (rand (i + 1) % (i + 2))) i

/-- `shuffleArray(array)` with the random source passed in. -/
def shuffleArray {α : Type} (rand : Nat → Nat) (l : List α) : List α :=
  fyLoop rand l (l.length - 1)

/-- The `RecommendationSource` interface of the XRAI engine (lines
220–228); `negativeKeywords` is an ES `Map<string, number>` modelled as a
total function with default 0. -/
structure XraiSources where
  searchHistory : List String
  watchHistory : List Video
  subscribedChannels : List Channel
  ngKeywords : List String
  ngChannels : List String
  hiddenVideoIds : List String
  negativeKeywords : String → Nat
  page : Nat

/-- Seed selection (lines 268–282): ten random history titles, else five
random subscription names, else the fixed cold-start seed set. -/
def xraiSeeds (rand : Nat → Nat) (s : XraiSources) : List String :=
  if s.watchHistory ≠ [] then
    ((shuffleArray rand s.watchHistory).take 10).map
      (fun v => cleanTitleForSearch v.title ++ " related")
  else if s.subscribedChannels ≠ [] then
    ((shuffleArray rand s.subscribedChannels).take 5).map
      (fun c => c.name ++ " videos")
  else ["Trending Japan", "Popular Music", "Gaming", "Cooking", "Vlog"]

/-- Per-seed search contributions (lines 286–288): each external search
either succeeds with its videos or fails, the `.catch(() => [])`
contributing the empty list. -/
def xraiContributions (search : String → Except Unit (List Video))
    (seeds : List String) : List (List Video) :=
  seeds.map (fun q =>
    match search q with
    | Except.ok vs => vs
    | Except.error _ => [])

/-- The trending fetch (line 291) with its `.catch(() => [])`. -/
def trendingOf (trending : Except Unit (List Video)) : List Video :=
  match trending with
  | Except.ok vs => vs
  | Except.error _ => []

/-- The trending injection (lines 300–306): append up to 3 shuffled
trending videos when any were fetched. -/
def xraiInject (rand : Nat → Nat) (trendingVideos candidates : List Video) : List Video :=
  if trendingVideos ≠ [] then candidates ++ (shuffleArray rand trendingVideos).take 3
  else candidates

/-- The deduplication filter (lines 308–314): keep the first occurrence of
each id, with the hidden-video ids pre-seeded into the seen set. -/
def dedupByIdAux (seen : List String) : List Video → List Video
  | [] => []
  | v :: vs =>
    if v.id ∈ seen then dedupByIdAux seen vs
    else v :: dedupByIdAux (v.id :: seen) vs

/-- The history keyword set of the strict positive filter (lines 319–326). -/
def historyKeywordsOf (seg : String → List String) (s : XraiSources) : List String :=
  (((s.watchHistory.take 50).map (fun v =>
      extractKeywords seg v.title ++ extractKeywords seg v.channelName)).flatten)
    ++ ((s.subscribedChannels.map (fun c => extractKeywords seg c.name)).flatten)

/-- The strict positive filter (lines 316–342): with non-empty history,
keep candidates sharing a keyword with the history keyword set, or
injected trending videos (matched by id). -/
def xraiStrictFilter (seg : String → List String) (s : XraiSources)
    (trendingVideos : List Video) (l : List Video) : List Video :=
  if s.watchHistory ≠ [] then
    l.filter (fun candidate =>
      ((extractKeywords seg candidate.title
          ++ extractKeywords seg candidate.channelName).any
        (fun k => (historyKeywordsOf seg s).contains k))
      || trendingVideos.any (fun tv => tv.id == candidate.id))
  else l

/-- The per-item keep condition of the negative filter (lines 344–366):
no NG keyword substring in the lower-cased `title + " " + channelName`, the
channel not NG-blocked, and the accumulated negative-keyword score at most
2. -/
def xraiNegItemOk (seg : String → List String) (s : XraiSources) (v : Video) : Bool :=
  !(s.ngKeywords.any (fun ng =>
      listIncludes (lowerStr (v.title ++ " " ++ v.channelName)).toList
        (lowerStr ng).toList))
    && !(s.ngChannels.contains v.channelId)
    && !(decide (2 < ((extractKeywords seg v.title
          ++ extractKeywords seg v.channelName).map s.negativeKeywords).sum))

/-- The negative-filtering stage (lines 344–366). -/
def xraiNegFilter (seg : String → List String) (s : XraiSources)
    (l : List Video) : List Video :=
  l.filter (xraiNegItemOk seg s)

/-- `getXraiRecommendations(sources)` (lines 258–370), with the external
calls (`searchVideos` per seed, `getRecommendedVideos` for trending), the
random source and the segmenter passed in: seed selection, concurrent
candidate generation with per-call catch-to-empty, trending injection,
id-deduplication (hidden ids pre-seeded), strict positive filtering,
negative filtering, final shuffle. -/
def getXraiRecommendations (rand : Nat → Nat) (seg : String → List String)
    (search : String → Except Unit (List Video))
    (trending : Except Unit (List Video)) (s : XraiSources) : List Video :=
  shuffleArray rand
    (xraiNegFilter seg s
      (xraiStrictFilter seg s (trendingOf trending)
        (dedupByIdAux s.hiddenVideoIds
          (xraiInject rand (trendingOf trending)
            ((xraiContributions search (xraiSeeds rand s)).flatten)))))

lemma xraiStrictFilter_nil (seg : String → List String) (s : XraiSources)
    (tv : List Video) : xraiStrictFilter seg s tv [] = [] := by
  rw [xraiStrictFilter]
  split
  · rfl
  · rfl

/-- C5: when every external catalog call fails (every per-seed search and
the trending fetch return errors), `getXraiRecommendations` returns the
empty list — each strategy's failure contributes an empty list through its
catch-handler instead of aborting the request, and no exception reaches
the caller. -/
theorem all_strategy_failures_empty_feed (rand : Nat → Nat)
    (seg : String → List String) (search : String → Except Unit (List Video))
    (trending : Except Unit (List Video)) (s : XraiSources)
    (hs : ∀ q, search q = Except.error ()) (ht : trending = Except.error ()) :
    getXraiRecommendations rand seg search trending s = [] := by
  have hc : xraiContributions search (xraiSeeds rand s)
      = (xraiSeeds rand s).map (fun _ => ([] : List Video)) := by
    rw [xraiContributions]
    have hf : (fun q => match search q with
        | Except.ok vs => vs
        | Except.error _ => ([] : List Video)) = fun _ => ([] : List Video) :=
      funext fun q => by rw [hs q]
    rw [hf]
  have hflat : (xraiContributions search (xraiSeeds rand s)).flatten = [] := by
    rw [hc]
    induction xraiSeeds rand s with
    | nil => rfl
    | cons a as ih => simp [ih]
  rw [getXraiRecommendations, hflat, ht]
  rw [show trendingOf (Except.error ()) = [] from rfl]
  rw [show xraiInject rand [] [] = [] from by simp [xraiInject]]
  rw [show dedupByIdAux s.hiddenVideoIds [] = [] from rfl]
  rw [xraiStrictFilter_nil]
  rw [show xraiNegFilter seg s [] = [] from rfl]
  rfl

/-- C5 (witness): all external calls failing at a concrete cold-start
source yields the empty feed. -/
theorem all_strategy_failures_empty_feed_witness :
    getXraiRecommendations (fun _ => 0) segEmpty (fun _ => Except.error ())
      (Except.error ()) ⟨[], [], [], [], [], [], fun _ => 0, 1⟩ = [] :=
  all_strategy_failures_empty_feed (fun _ => 0) segEmpty (fun _ => Except.error ())
    (Except.error ()) ⟨[], [], [], [], [], [], fun _ => 0, 1⟩ (fun _ => rfl) rfl

/-- C3 (counterexample): the claim's normalized text includes the
description snippet, but the negative filter of `getXraiRecommendations`
checks only `title + " " + channelName`: a video whose description snippet
contains the blocked keyword `"bad"` survives that filter even though the
title+channel+description concatenation contains the blocked keyword. -/
theorem ng_description_counterexample :
    ((⟨"vid00000002", "x", "y", "ch2", some "bad stuff", "", "", "", ""⟩ : Video)
        ∈ xraiNegFilter segEmpty ⟨[], [], [], ["bad"], [], [], fun _ => 0, 1⟩
          [⟨"vid00000002", "x", "y", "ch2", some "bad stuff", "", "", "", ""⟩])
      ∧ listIncludes
          (fullTextLowerOf
            ⟨"vid00000002", "x", "y", "ch2", some "bad stuff", "", "", "", ""⟩).toList
          (lowerStr "bad").toList = true := by
  constructor
  · decide
  · decide

/-- C3 (amended): every item surviving negative filtering contains no
blocked NG keyword (case-folded substring check) in its normalized text and
has an unblocked channel id — where the normalized text is
`title + " " + channelName` for `getXraiRecommendations`' filter, and
`title + " " + channelName + " " + descriptionSnippet` for the videos
scored by `rankVideos`. -/
theorem ng_filter_amended :
    (∀ (seg : String → List String) (s : XraiSources) (l : List Video) (v : Video),
        v ∈ xraiNegFilter seg s l →
          (∀ ng ∈ s.ngKeywords,
            listIncludes (lowerStr (v.title ++ " " ++ v.channelName)).toList
              (lowerStr ng).toList = false)
          ∧ s.ngChannels.contains v.channelId = false)
      ∧ (∀ (ctx : ScoringContext) (videos : List Video) (v : Video),
        v ∈ acceptedVideos ctx videos →
          (∀ ng ∈ ctx.ngKeywords,
            listIncludes (fullTextLowerOf v).toList (lowerStr ng).toList = false)
          ∧ ctx.ngChannels.contains v.channelId = false) := by
  constructor
  · intro seg s l v hv
    have h2 := (List.mem_filter.mp hv).2
    simp only [xraiNegItemOk, Bool.and_eq_true, Bool.not_eq_true'] at h2
    refine ⟨?_, h2.1.2⟩
    intro ng hng
    have hany : ¬ (s.ngKeywords.any (fun ng =>
        listIncludes (lowerStr (v.title ++ " " ++ v.channelName)).toList
          (lowerStr ng).toList) = true) := by
      rw [h2.1.1]
      exact Bool.false_ne_true
    cases hcase : listIncludes (lowerStr (v.title ++ " " ++ v.channelName)).toList
        (lowerStr ng).toList with
    | false => rfl
    | true => exact absurd (List.any_eq_true.mpr ⟨ng, hng, hcase⟩) hany
  · intro ctx videos v hv
    have h2 := (List.mem_filter.mp hv).2
    simp only [accepts, Bool.and_eq_true, Bool.not_eq_true'] at h2
    refine ⟨?_, h2.2⟩
    intro ng hng
    have hany : ¬ (ctx.ngKeywords.any (fun ng =>
        listIncludes (fullTextLowerOf v).toList (lowerStr ng).toList) = true) := by
      rw [h2.1.2]
      exact Bool.false_ne_true
    cases hcase : listIncludes (fullTextLowerOf v).toList (lowerStr ng).toList with
    | false => rfl
    | true => exact absurd (List.any_eq_true.mpr ⟨ng, hng, hcase⟩) hany

/-- C3 (witness): the amended theorem at a concrete surviving video of the
`getXraiRecommendations` negative filter. -/
theorem ng_filter_amended_witness :
    (∀ ng ∈ (["bad"] : List String),
      listIncludes (lowerStr ("ok" ++ " " ++ "chan")).toList (lowerStr ng).toList = false)
    ∧ (["chX"] : List String).contains "ch3" = false :=
  ng_filter_amended.1 segEmpty ⟨[], [], [], ["bad"], ["chX"], [], fun _ => 0, 1⟩
    [⟨"vid00000003", "ok", "chan", "ch3", none, "", "", "", ""⟩]
    ⟨"vid00000003", "ok", "chan", "ch3", none, "", "", "", ""⟩ (by decide)

end XeroxYT
